import Mathlib

/-!
Verification of the distribution-building engine of the poetry repository:
`poetry/packages/dependency.py`, `poetry/masonry/builders/sdist.py` and
`poetry/masonry/utils/tags.py` are embedded shallowly below, and the
theorems at the end of this file settle the frozen claims about them.

Python strings are modelled by `String`; the handful of Python string
operations the code uses (`str.lower`, `str.replace` with one-character
arguments, `str.split`, `str.startswith`, `sep.join`, indexing `s[0]`)
are re-implemented over the underlying character lists so that every
definition evaluates by kernel reduction.
-/

namespace Poetry

/-! ### Python string primitives -/

/-- Python `sep.join(parts)` for a string separator. -/
def pyJoin (sep : String) : List String → String
  | [] => ""
  | [x] => x
  | x :: xs => x ++ sep ++ pyJoin sep xs

/-- Python `','.join(parts)`. -/
def commaJoin : List String → String := pyJoin ","

/-- Python `s.replace(' ', '')`: removes every space character. -/
def pyStripSpaces (s : String) : String := ⟨s.data.filter (fun c => c ≠ ' ')⟩

/-- Python `s.replace(old, new)` where `old` and `new` are single
characters, as in `soabi.replace(".", "_").replace("-", "_")`. -/
def pyReplaceChar (old new : Char) (s : String) : String :=
  ⟨s.data.map (fun c => if c = old then new else c)⟩

/-- Character-list version of Python `s.startswith(p)` (first argument is
the pattern `p`). -/
def startsWithChars : List Char → List Char → Bool
  | [], _ => true
  | _ :: _, [] => false
  | p :: ps, c :: cs => p = c && startsWithChars ps cs

/-- Python `s.startswith(p)`. -/
def pyStartsWith (p s : String) : Bool := startsWithChars p.data s.data

/-- Splits a character list at every occurrence of the separator
character; auxiliary for `pySplitChar`. -/
def splitChars (sep : Char) : List Char → List (List Char)
  | [] => [[]]
  | c :: cs =>
    match splitChars sep cs with
    | [] => [[]]
    | seg :: segs => if c = sep then [] :: seg :: segs else (c :: seg) :: segs

/-- Python `s.split(sep)` for a one-character separator (as in
`soabi.split("-")` and `rel_path.split(os.sep)` with `os.sep = '/'`).
Like Python, adjacent separators produce empty segments. -/
def pySplitChar (sep : Char) (s : String) : List String :=
  (splitChars sep s.data).map (fun l => ⟨l⟩)

/-- Python `s.lower()` restricted to ASCII letters (package names). -/
def pyLower (s : String) : String :=
  ⟨s.data.map (fun c =>
    if 65 ≤ c.toNat ∧ c.toNat ≤ 90 then Char.ofNat (c.toNat + 32) else c)⟩

/-- Python string indexing `s[0]`, as a one-character string (`""` is
never fed to it by the embedded code: the callers guard emptiness). -/
def pyHeadStr (s : String) : String :=
  match s.data with
  | [] => ""
  | c :: _ => ⟨[c]⟩

/-- Code-point lexicographic order on character lists: the order Python
uses to compare strings. -/
def charListLe : List Char → List Char → Bool
  | [], _ => true
  | _ :: _, [] => false
  | a :: as, b :: bs => a.toNat < b.toNat || (a.toNat == b.toNat && charListLe as bs)

/-- Python string order `s <= t` (code-point lexicographic). -/
def pyStrLe (s t : String) : Bool := charListLe s.data t.data

/-- Inserts into a `pyStrLe`-sorted list, keeping it sorted. -/
def insertSorted (x : String) : List String → List String
  | [] => [x]
  | y :: ys => if pyStrLe x y then x :: y :: ys else y :: insertSorted x ys

/-- Python `sorted(l)` for lists of strings (ascending insertion sort;
`sorted` is stable, and equal string keys are identical, so any
ascending sort has the same result). -/
def sortStrings (l : List String) : List String := l.foldr insertSorted []

/-- `pyStrLe` as a relation, for sortedness statements. -/
def StrLe (s t : String) : Prop := pyStrLe s t = true

/-! ### The external constraint type (poetry.semver)

The repository's `poetry.semver` package (`Constraint`, `MultiConstraint`,
`VersionParser`) is not part of the sources under verification; the spec
treats it as an opaque external collaborator. -/

/-- Modelled from the spec: the external constraint expression type of
`poetry.semver` (missing from the sources), "a tagged sum type with two
variants — `Single(operator, version)` and `All(ordered list of
ConstraintExpression)`". The members of a parsed conjunction
(`MultiConstraint.constraints`) are always single constraints, so `multi`
holds the ordered list of their (operator, version) pairs. -/
inductive BaseConstraint where
  | constraint (op : String) (version : String)
  | multi (cs : List (String × String))
deriving DecidableEq

/-- Modelled from the spec: the "accept any version" constraint produced
by parsing `'*'` (spec: parse failure is "recovered locally by
substituting the accept-any-version constraint"). -/
def anyConstraint : BaseConstraint := .constraint ">=" "0.0.0"

/-- Modelled from the spec: `str()` of a single constraint, used by the
renderer through "stringification of possibly-conjunctive constraints";
a single constraint prints as the operator, a space, and the version
(the renderer then strips the interior whitespace). -/
def singleText (c : String × String) : String := c.1 ++ " " ++ c.2

/-- Modelled from the spec: `str()` of a constraint expression; a
conjunction prints its sub-constraints comma-space-joined. -/
def constraintText : BaseConstraint → String
  | .constraint op version => singleText (op, version)
  | .multi cs => pyJoin ", " (cs.map singleText)

/-- A dotted version string made only of non-empty numeric components,
e.g. `2.0` or `1.0.3`. -/
def validVersionChars (l : List Char) : Bool :=
  match splitChars '.' l with
  | segs => segs.all (fun seg => ¬ seg.isEmpty && seg.all (fun c => c.isDigit))

/-- Decimal rendering of a natural number (Python `str(n)`). -/
def natStr (n : Nat) : String := toString n

/-- Parses the leading numeric component of a dotted version, used to
compute the upper bound of a caret constraint. -/
def leadingComponent (l : List Char) : Option Nat :=
  match splitChars '.' l with
  | [] => none
  | seg :: _ =>
    if seg.isEmpty ∨ ¬ seg.all (fun c => c.isDigit) then none
    else some (seg.foldl (fun n c => n * 10 + (c.toNat - 48)) 0)

/-- Modelled from the spec: parsing one comma-separated atom of a
constraint string into its list of single constraints. A caret atom
`^X...` expands to the conjunction `>=X..., <(X+1).0` (spec example:
`ujson (^1.0)` renders as `ujson>=1.0,<2.0`); a comparison atom is an
operator followed by a dotted numeric version; anything else fails
(`ValueError` in the parser). -/
def parseAtomChars (l : List Char) : Option (List (String × String)) :=
  let l := l.dropWhile (fun c => c = ' ')
  let l := (l.reverse.dropWhile (fun c => c = ' ')).reverse
  match l with
  | '^' :: rest =>
    let rest := rest.dropWhile (fun c => c = ' ')
    if validVersionChars rest then
      match leadingComponent rest with
      | some major => some [(">=", ⟨rest⟩), ("<", natStr (major + 1) ++ ".0")]
      | none => none
    else none
  | a :: b :: rest =>
    if (a = '>' ∨ a = '<' ∨ a = '!' ∨ a = '=') ∧ b = '=' then
      let v := rest.dropWhile (fun c => c = ' ')
      if validVersionChars v then some [(⟨[a, b]⟩, ⟨v⟩)] else none
    else if a = '>' ∨ a = '<' then
      let v := (b :: rest).dropWhile (fun c => c = ' ')
      if validVersionChars v then some [(⟨[a]⟩, ⟨v⟩)] else none
    else if validVersionChars l then some [("==", ⟨l⟩)] else none
  | [c] => if validVersionChars [c] then some [("==", ⟨[c]⟩)] else none
  | [] => none

/-- Modelled from the spec: `VersionParser.parse_constraints` of the
missing `poetry.semver` package. `'*'` parses to the accept-any
constraint; a comma-separated list parses each atom and yields a single
constraint or a flat conjunction; an unparseable string yields `none`
(the parser's `ValueError`). -/
def parse_constraints (s : String) : Option BaseConstraint :=
  let t := (s.data.dropWhile (fun c => c = ' ')).reverse.dropWhile (fun c => c = ' ') |>.reverse
  if t = ['*'] then some anyConstraint
  else
    match (splitChars ',' t).mapM parseAtomChars with
    | none => none
    | some css =>
      match css.flatten with
      | [(op, v)] => some (.constraint op v)
      | cs => some (.multi cs)

/-! ### poetry/packages/dependency.py -/

/-- The `Dependency` value object of `poetry/packages/dependency.py`;
field names follow the attributes set by `Dependency.__init__`. -/
structure Dependency where
  name : String
  pretty_name : String
  constraint : BaseConstraint
  pretty_constraint : String
  optional : Bool
  category : String
  allows_prereleases : Bool
  python_versions : String
  python_constraint : BaseConstraint
  platform : String
  platform_constraint : BaseConstraint
  extras : List String
deriving DecidableEq

/-- `Dependency.__init__`: lower-cases the name, parses the constraint
string and, on a `ValueError`, silently substitutes the parse of `'*'`
(the accept-any constraint); the python/platform constraints start as
`'*'`. -/
def Dependency.make (name : String) (constraint : String) (optional : Bool)
    (category : String) (allows_prereleases : Bool) : Dependency :=
  { name := pyLower name
    pretty_name := name
    constraint :=
      match parse_constraints constraint with
      | some c => c
      | none => anyConstraint
    pretty_constraint := constraint
    optional := optional
    category := category
    allows_prereleases := allows_prereleases
    python_versions := "*"
    python_constraint := anyConstraint
    platform := "*"
    platform_constraint := anyConstraint
    extras := [] }

/-- `Dependency.is_optional`. -/
def Dependency.is_optional (d : Dependency) : Bool := d.optional

/-- The `python_versions` property setter: it first stores the raw string
and only then re-parses it; a parse failure (`ValueError`) propagates to
the caller. The returned flag records whether the exception was raised;
the returned `Dependency` is the object's state when the setter finished
or the exception escaped. -/
def Dependency.set_python_versions (d : Dependency) (value : String) : Dependency × Bool :=
  let d1 := { d with python_versions := value }
  match parse_constraints value with
  | some c => ({ d1 with python_constraint := c }, false)
  | none => (d1, true)

/-- The rendered constraint part of `Dependency.to_pep_508`: a
`MultiConstraint` renders each sub-constraint with its spaces removed,
comma-joined with no space; a single constraint renders with its spaces
removed. -/
def renderConstraint : BaseConstraint → String
  | .multi cs => commaJoin (cs.map (fun c => pyStripSpaces (singleText c)))
  | .constraint op v => pyStripSpaces (constraintText (.constraint op v))

/-- `Dependency.to_pep_508`. -/
def Dependency.to_pep_508 (d : Dependency) : String :=
  let requirement := d.pretty_name ++ renderConstraint d.constraint
  let markers : List String :=
    if d.python_versions ≠ "*" then
      ["python_version" ++ renderConstraint d.python_constraint]
    else []
  match markers with
  | [] => requirement
  | ms => requirement ++ "; " ++ pyJoin " and " ms

/-- `Dependency.__eq__`: equal lower-cased name and equal parsed
constraint. -/
def dependencyEq (a b : Dependency) : Bool :=
  a.name = b.name && a.constraint = b.constraint

/-- The tuple Python's `Dependency.__hash__` hashes:
`(self._name, self._pretty_constraint)` — note the unparsed
`pretty_constraint`, where `__eq__` compares the parsed `constraint`.
Distinct tuples hash to distinct values (up to the hash function's
collisions), so the tuple itself stands in for the hash value. -/
def dependencyHashKey (d : Dependency) : String × String :=
  (d.name, d.pretty_constraint)

/-! ### SdistBuilder.convert_dependencies (poetry/masonry/builders/sdist.py) -/

/-- The slice of the `Package` object that `convert_dependencies` reads:
its extras map, extra name → list of dependency objects of that extra. -/
structure Package where
  extras : List (String × List Dependency)

/-- Appends a value to `d[k]` in a `defaultdict(list)` represented as an
association list in key-insertion order. -/
def assocAppend : List (String × List String) → String → String → List (String × List String)
  | [], k, v => [(k, [v])]
  | (k', vs) :: rest, k, v =>
    if k' = k then (k', vs ++ [v]) :: rest else (k', vs) :: assocAppend rest k v

/-- Dictionary lookup in an association list. -/
def assocFind : List (String × List String) → String → Option (List String)
  | [], _ => none
  | (k, v) :: rest, q => if k = q then some v else assocFind rest q

/-- The body of `convert_dependencies`' loop for one optional dependency:
for every extra whose requirement list contains a dependency of the same
name, append the rendered requirement to that extra's list (once per
matching entry). -/
def addToExtras (package : Package) (dependency : Dependency)
    (extras : List (String × List String)) : List (String × List String) :=
  package.extras.foldl
    (fun ex p =>
      p.2.foldl
        (fun ex req =>
          if req.name = dependency.name then assocAppend ex p.1 dependency.to_pep_508 else ex)
        ex)
    extras

/-- One iteration of `convert_dependencies`' loop: an optional
dependency is routed to the extras lists, a mandatory one is appended to
the main list. -/
def convStep (package : Package) (acc : List String × List (String × List String))
    (dependency : Dependency) : List String × List (String × List String) :=
  if dependency.is_optional then (acc.1, addToExtras package dependency acc.2)
  else (acc.1 ++ [dependency.to_pep_508], acc.2)

/-- `SdistBuilder.convert_dependencies`: partitions the dependency list
into the mandatory requirement list and the per-extra requirement
lists. -/
def convert_dependencies (package : Package) (dependencies : List Dependency) :
    List String × List (String × List String) :=
  dependencies.foldl (convStep package) ([], [])

/-! ### SdistBuilder.find_packages (poetry/masonry/builders/sdist.py)

The filesystem is modelled as a rose tree of directories; `walkForest`
reproduces the order of `os.walk(pkgdir, topdown=True)`: each directory
is yielded before its subdirectories, which are visited in listing
order. Relative paths (`os.path.relpath(path, pkgdir)`) are kept as
their lists of segments; on POSIX, `'/'.join` is injective on segment
lists (segments are non-empty and contain no slash), so comparing
segment lists is comparing the joined strings. -/

/-- A directory: its basename, the plain files directly inside it, and
its subdirectories. -/
inductive FsDir where
  | mk (name : String) (files : List String) (subdirs : List FsDir)

/-- The basename of an `FsDir`. -/
def FsDir.name : FsDir → String
  | .mk n _ _ => n

/-- The plain files of an `FsDir`. -/
def FsDir.files : FsDir → List String
  | .mk _ f _ => f

/-- The subdirectories of an `FsDir`. -/
def FsDir.subdirs : FsDir → List FsDir
  | .mk _ _ s => s

/-- The `(relative path, filenames)` pairs that `os.walk` yields for a
list of sibling directories, in `topdown=True` order, the relative path
kept as its segments. -/
def walkForest (rel : List String) : List FsDir → List (List String × List String)
  | [] => []
  | FsDir.mk name files subdirs :: rest =>
    (rel ++ [name], files) :: (walkForest (rel ++ [name]) subdirs ++ walkForest rel rest)

/-- `posixpath.join(a, b)` for the two-argument calls the builder makes
(`pjoin(from_nearest_pkg, '*')`): empty left operand yields the right
operand; otherwise the operands are joined with a slash unless one is
already there. -/
def pjoin (a b : String) : String :=
  if pyStartsWith "/" b then b
  else if a = "" then b
  else if a.data.getLast? = some '/' then a ++ b
  else a ++ "/" ++ b

/-- `find_nearest_pkg`'s loop: for `i` in `reversed(range(1, len(parts)))`,
if `parts[:i]` is a known package boundary, the owner is its dotted name
and the remainder is `parts[i:]`; the fallback owner is the top-level
package. The argument `i` is the loop counter. -/
def findNearestAux (pkg_name : String) (subpkg_paths : List (List String))
    (parts : List String) : Nat → String × String
  | 0 => (pkg_name, pyJoin "/" parts)
  | i + 1 =>
    if parts.take (i + 1) ∈ subpkg_paths then
      (pyJoin "." (pkg_name :: parts.take (i + 1)), pyJoin "/" (parts.drop (i + 1)))
    else findNearestAux pkg_name subpkg_paths parts i

/-- `find_nearest_pkg(rel_path)` from `find_packages`. -/
def find_nearest_pkg (pkg_name : String) (subpkg_paths : List (List String))
    (parts : List String) : String × String :=
  findNearestAux pkg_name subpkg_paths parts (parts.length - 1)

/-- The mutable state of `find_packages`' walk loop. -/
structure DiscState where
  packages : List String
  subpkg_paths : List (List String)
  pkg_data : List (String × List String)

/-- One iteration of `find_packages`' `os.walk` loop: skip bytecode-cache
basenames and the root entry; record a sub-package when `__init__.py` is
present; otherwise attribute a `<path>/*` data glob to the nearest
ancestor package. -/
def discStep (pkg_name : String) (st : DiscState) (e : List String × List String) : DiscState :=
  let basename := e.1.getLastD pkg_name
  if basename = "__pycache__" then st
  else if e.1 = [] then st
  else if e.2.contains "__init__.py" then
    { st with
      subpkg_paths := st.subpkg_paths ++ [e.1]
      packages := st.packages ++ [pyJoin "." (pkg_name :: e.1)] }
  else
    let pf := find_nearest_pkg pkg_name st.subpkg_paths e.1
    { st with pkg_data := assocAppend st.pkg_data pf.1 (pjoin pf.2 "*") }

/-- The walk of `find_packages` over a list of already-relativised
entries, followed by the final per-key sort and the package-list sort. -/
def processEntries (pkg_name : String) (entries : List (List String × List String)) :
    List String × List (String × List String) :=
  let st := entries.foldl (discStep pkg_name)
    { packages := [pkg_name], subpkg_paths := [], pkg_data := [("", ["*"])] }
  (sortStrings st.packages, st.pkg_data.map (fun kv => (kv.1, sortStrings kv.2)))

/-- `SdistBuilder.find_packages`, over the directory tree rooted at the
module path: the top-level package name is the root's basename, and the
walk starts at the root entry itself (skipped by the `from_top_level ==
'.'` test unless its basename is a bytecode cache, in which case the
first test already skipped it). -/
def find_packages (root : FsDir) : List String × List (String × List String) :=
  processEntries root.name (([], root.files) :: walkForest [] root.subdirs)

/-! ### poetry/masonry/utils/tags.py

The environment descriptor passed to the tag functions carries the
fields of poetry's env object (`python_implementation`, `version_info`,
`config_var`) together with the host-interpreter state the module reads
directly from `sys`, `imp` and `distutils.util`. `version_info` is kept
as its numeric components. Exceptions (`LookupError` for an unknown
implementation, the `IndexError` raised on an empty version list or an
empty primary version, the `AttributeError` raised when `SOABI` is a
truthy non-string) are modelled by `Option`: `none` is a raised
exception. -/

/-- A value returned by `env.config_var`: Python configuration variables
are strings, integers or booleans. -/
inductive PyVal where
  | str (s : String)
  | int (n : Int)
  | bool (b : Bool)
deriving DecidableEq

/-- Python truthiness of a configuration value. -/
def pyTruthy : PyVal → Bool
  | .str s => s ≠ ""
  | .int n => n ≠ 0
  | .bool b => b

/-- Python falsiness of an optional configuration value (`not val`, with
an unset variable read as `None`). -/
def optionFalsy : Option PyVal → Bool
  | some v => ! pyTruthy v
  | none => true

/-- Python `==` between a configuration value and the `expected` argument
of `get_flag` (`True` or `4`): booleans compare equal to the matching
0/1 integers. -/
def pyValEq : PyVal → PyVal → Bool
  | .str s, .str t => s = t
  | .int n, .int m => n = m
  | .bool b, .bool c => b = c
  | .int n, .bool c => n = (if c then 1 else 0)
  | .bool b, .int m => (if b then 1 else 0 : Int) = m
  | _, _ => false

/-- Python `str()` of a configuration value. -/
def pyValStr : PyVal → String
  | .str s => s
  | .int n => toString n
  | .bool b => if b then "True" else "False"

/-- The runtime-environment descriptor consumed by the tag generator. -/
structure Env where
  python_implementation : String
  version_info : List Nat
  config_var : String → Option PyVal
  gettotalrefcount : Bool
  maxunicode_wide : Bool
  suffixes : List String
  distutils_platform : String
  maxsize_small : Bool

/-- `get_abbr_impl`: abbreviated implementation name; an unknown
implementation raises `LookupError` (`none`). -/
def get_abbr_impl (env : Env) : Option String :=
  if env.python_implementation = "PyPy" then some "pp"
  else if env.python_implementation = "Jython" then some "jy"
  else if env.python_implementation = "IronPython" then some "ip"
  else if env.python_implementation = "CPython" then some "cp"
  else none

/-- `get_impl_version_info`: `version_info[:3]` for PyPy, else
`version_info[:2]`. -/
def get_impl_version_info (env : Env) : Option (List Nat) :=
  match get_abbr_impl env with
  | none => none
  | some ab => some (if ab = "pp" then env.version_info.take 3 else env.version_info.take 2)

/-- Python tuple comparison `version_info < (3, 3)` on the numeric
components. -/
def versionInfoLt : List Nat → List Nat → Bool
  | _, [] => false
  | [], _ :: _ => true
  | a :: as, b :: bs => a < b || (a == b && versionInfoLt as bs)

/-- `get_impl_ver`: the `py_version_nodot` configuration value if it is
truthy and the implementation is not PyPy, else the concatenation of the
`get_impl_version_info` components. -/
def get_impl_ver (env : Env) : Option String :=
  match get_abbr_impl env, get_impl_version_info env with
  | some ab, some vi =>
    let synth := (vi.map natStr).foldl (fun a s => a ++ s) ""
    match env.config_var "py_version_nodot" with
    | some v => if pyTruthy v ∧ ab ≠ "pp" then some (pyValStr v) else some synth
    | none => some synth
  | _, _ => none

/-- `get_flag`: the configuration variable compared with `expected` when
set, the fallback when unset (the warning it may emit is not modelled). -/
def get_flag (env : Env) (var : String) (fallback : Bool) (expected : PyVal) : Bool :=
  match env.config_var var with
  | none => fallback
  | some v => pyValEq v expected

/-- `get_abi_tag`: prefer the reported `SOABI` (normalising a
`cpython-<n>` value to `cp<n>` and punctuation to underscores),
emulating it from the debug/pymalloc/wide-unicode flags for CPython and
PyPy when it is unset; `some none` is Python's `abi = None`.
`hasattr(sys, "maxunicode")` always holds on Python 3. -/
def get_abi_tag (env : Env) : Option (Option String) :=
  let soabi := env.config_var "SOABI"
  match get_abbr_impl env with
  | none => none
  | some impl =>
    if optionFalsy soabi ∧ (impl = "cp" ∨ impl = "pp") then
      let d := if get_flag env "Py_DEBUG" env.gettotalrefcount (.bool true) then "d" else ""
      let m := if get_flag env "WITH_PYMALLOC" (impl = "cp") (.bool true) then "m" else ""
      let u := if get_flag env "Py_UNICODE_SIZE" env.maxunicode_wide (.int 4)
          && versionInfoLt env.version_info [3, 3] then "u" else ""
      match get_impl_ver env with
      | some iv => some (some (impl ++ iv ++ d ++ m ++ u))
      | none => none
    else
      match soabi with
      | none => some none
      | some v =>
        if pyTruthy v then
          match v with
          | .str s =>
            if pyStartsWith "cpython-" s then
              some (some ("cp" ++ (pySplitChar '-' s).getD 1 ""))
            else some (some (pyReplaceChar '-' '_' (pyReplaceChar '.' '_' s)))
          | _ => none
        else some none

/-- `get_platform`: the `distutils` platform with punctuation replaced by
underscores, special-casing a 32-bit build on 64-bit Linux. -/
def get_platform (env : Env) : String :=
  let result := pyReplaceChar '-' '_' (pyReplaceChar '.' '_' env.distutils_platform)
  if result = "linux_x86_64" then
    if env.maxsize_small then "linux_i686" else result
  else result

/-- The limited-API ABI identifiers harvested from the host's
native-extension suffixes (`imp.get_suffixes()`): the `<abi>` of every
suffix of the form `.abi...`, deduplicated and sorted (the Python code
keeps them in a `set`, which this model iterates in sorted order). -/
def abi3s_of (env : Env) : List String :=
  sortStrings
    (((env.suffixes.filter (fun s => pyStartsWith ".abi" s)).map
      (fun s => (pySplitChar '.' s).getD 1 "")).eraseDups)

/-- The ABI list of `get_supported`: the determined ABI tag (if any)
first, then the sorted limited-API identifiers, then `"none"`. -/
def abis_of (env : Env) (abiOpt : Option String) : List String :=
  abiOpt.toList ++ abi3s_of env ++ ["none"]

/-- The platform candidates of `get_supported`: the caller-supplied
platform (if any) followed by the native platform. -/
def platforms_of (env : Env) (supplied_platform : Option String) : List String :=
  supplied_platform.toList ++ [get_platform env]

/-- The version list `get_supported` works with: the caller's list, or
the current version followed by every earlier minor version of the same
major version.  `none` on an unknown implementation or an empty
`version_info` (`IndexError` on `version_info[-1]`). -/
def effective_versions (env : Env) (versions : Option (List String)) : Option (List String) :=
  match versions with
  | some vs => some vs
  | none =>
    match get_impl_version_info env with
    | none => none
    | some vi =>
      match vi.getLast? with
      | none => none
      | some last =>
        some ((List.range (last + 1)).reverse.map
          (fun minor => (vi.dropLast.map natStr).foldl (fun a s => a ++ s) "" ++ natStr minor))

/-- `get_supported(env, versions, supplied_platform)`: the ordered tag
list. The five blocks mirror the five appending passes of the source;
the `i == 0` tests of the two enumerating passes fire exactly at the
first element, which is written out explicitly. The last platform
candidate is the value the loop variable `arch` retains after the first
pass. -/
def get_supported (env : Env) (versions : Option (List String))
    (supplied_platform : Option String) : Option (List (String × String × String)) :=
  match effective_versions env versions with
  | none => none
  | some vs =>
    match vs with
    | [] => none
    | v0 :: vtail =>
      if v0 = "" then none
      else
        match get_abbr_impl env with
        | none => none
        | some impl =>
          match get_abi_tag env with
          | none => none
          | some abiOpt =>
            let abis := abis_of env abiOpt
            let platforms := platforms_of env supplied_platform
            let current := abis.flatMap
              (fun abi => platforms.map (fun arch => (impl ++ v0, abi, arch)))
            let abi3compat := (vtail.takeWhile (fun v => v ≠ "31" ∧ v ≠ "30")).flatMap
              (fun v => (abi3s_of env).flatMap
                (fun abi => platforms.map (fun arch => (impl ++ v, abi, arch))))
            let noAbiNoArch := (impl ++ v0, "none", "any") ::
              (impl ++ pyHeadStr v0, "none", "any") ::
              vtail.map (fun v => (impl ++ v, "none", "any"))
            let majorPlatform := [("py" ++ pyHeadStr v0, "none", platforms.getLastD "")]
            let generic := ("py" ++ v0, "none", "any") ::
              ("py" ++ pyHeadStr v0, "none", "any") ::
              vtail.map (fun v => ("py" ++ v, "none", "any"))
            some (current ++ abi3compat ++ noAbiNoArch ++ majorPlatform ++ generic)

/-! ### Concrete instances used by the claims -/

/-- The worked example's source tree: `demo_pkg/__init__.py` and
`demo_pkg/data/readme.txt`, with no marker file in `data/`. -/
def demoTree : FsDir := .mk "demo_pkg" ["__init__.py"] [.mk "data" ["readme.txt"] []]

/-- The worked example's mandatory dependency `requests (>=2.0,<3.0)`. -/
def requestsDep : Dependency := Dependency.make "requests" ">=2.0,<3.0" false "main" false

/-- The worked example's optional dependency `ujson (^1.0)`. -/
def ujsonDep : Dependency := Dependency.make "ujson" "^1.0" true "main" false

/-- The worked example's package slice: `ujson` belongs to extra `fast`. -/
def demoPackage : Package := ⟨[("fast", [ujsonDep])]⟩

/-- The spec's reference environment for the tag generator: CPython 3.9
with reported SOABI `cpython-39-x86_64-linux-gnu` on `linux_x86_64`. -/
def refEnv : Env where
  python_implementation := "CPython"
  version_info := [3, 9, 0]
  config_var := fun k =>
    if k = "SOABI" then some (.str "cpython-39-x86_64-linux-gnu")
    else if k = "py_version_nodot" then some (.str "39")
    else none
  gettotalrefcount := false
  maxunicode_wide := true
  suffixes := [".cpython-39-x86_64-linux-gnu.so", ".abi3.so", ".so"]
  distutils_platform := "linux-x86_64"
  maxsize_small := false

/-! ### Claims -/

/-- The marker part of a rendered requirement: everything from `"; "` on,
empty when the python-version constraint is the default. -/
def markerSuffix (d : Dependency) : String :=
  if d.python_versions ≠ "*" then
    "; " ++ pyJoin " and " ["python_version" ++ renderConstraint d.python_constraint]
  else ""

/-- Combines an existing dictionary entry with newly appended values:
`none` stays absent only when nothing is appended (a `defaultdict`
creates the entry on first append). -/
def combineFound : Option (List String) → List String → Option (List String)
  | some v, k => some (v ++ k)
  | none, [] => none
  | none, k => some k

/-- The rendered requirements an extra named `e` receives from the
dependency list: for each optional dependency, one copy per matching
member of each extras entry named `e`. -/
def extrasValue (package : Package) (deps : List Dependency) (e : String) : List String :=
  deps.flatMap (fun d =>
    if d.is_optional then
      package.extras.flatMap (fun p =>
        if p.1 = e then
          p.2.flatMap (fun req => if req.name = d.name then [d.to_pep_508] else [])
        else [])
    else [])

/-! ### Theorems -/

/-- Membership after `insertSorted`. -/
theorem mem_insertSorted {a x : String} {l : List String} :
    a ∈ insertSorted x l ↔ a = x ∨ a ∈ l := by
  induction l with
  | nil => simp [insertSorted]
  | cons y ys ih =>
    simp only [insertSorted]
    cases h : pyStrLe x y with
    | true => simp
    | false =>
      simp only [Bool.false_eq_true, if_false, List.mem_cons, ih]
      tauto

/-- Membership after `sortStrings`. -/
theorem mem_sortStrings {a : String} {l : List String} :
    a ∈ sortStrings l ↔ a ∈ l := by
  induction l with
  | nil => simp [sortStrings]
  | cons x xs ih =>
    simp only [sortStrings, List.foldr_cons]
    rw [show List.foldr insertSorted [] xs = sortStrings xs from rfl] at *
    rw [mem_insertSorted, ih]
    simp

/-- `charListLe` is total. -/
theorem charListLe_total : ∀ a b : List Char, charListLe a b = true ∨ charListLe b a = true := by
  intro a
  induction a with
  | nil => intro b; left; rfl
  | cons x xs ih =>
    intro b
    cases b with
    | nil => right; rfl
    | cons y ys =>
      simp only [charListLe, Bool.or_eq_true, Bool.and_eq_true, beq_iff_eq,
        decide_eq_true_eq]
      rcases Nat.lt_trichotomy x.toNat y.toNat with h | h | h
      · left; left; exact h
      · rcases ih ys with h2 | h2
        · left; right; exact ⟨h, h2⟩
        · right; right; exact ⟨h.symm, h2⟩
      · right; left; exact h

/-- `charListLe` is transitive. -/
theorem charListLe_trans :
    ∀ a b c : List Char, charListLe a b = true → charListLe b c = true →
      charListLe a c = true := by
  intro a
  induction a with
  | nil => intro b c _ _; rfl
  | cons x xs ih =>
    intro b c hab hbc
    cases b with
    | nil => simp [charListLe] at hab
    | cons y ys =>
      cases c with
      | nil => simp [charListLe] at hbc
      | cons z zs =>
        simp only [charListLe, Bool.or_eq_true, Bool.and_eq_true, beq_iff_eq,
          decide_eq_true_eq] at hab hbc ⊢
        rcases hab with h1 | ⟨h1, h1r⟩ <;> rcases hbc with h2 | ⟨h2, h2r⟩
        · left; omega
        · left; omega
        · left; omega
        · right; exact ⟨by omega, ih ys zs h1r h2r⟩

theorem strLe_total (s t : String) : StrLe s t ∨ StrLe t s := charListLe_total _ _

theorem strLe_trans {s t u : String} : StrLe s t → StrLe t u → StrLe s u :=
  charListLe_trans _ _ _

/-- `insertSorted` preserves sortedness. -/
theorem sorted_insertSorted {x : String} {l : List String}
    (h : l.Pairwise StrLe) : (insertSorted x l).Pairwise StrLe := by
  induction l with
  | nil => simp [insertSorted]
  | cons y ys ih =>
    rcases List.pairwise_cons.mp h with ⟨hy, hys⟩
    simp only [insertSorted]
    cases hxy : pyStrLe x y with
    | true =>
      simp only [if_true]
      refine List.pairwise_cons.mpr ⟨?_, h⟩
      intro b hb
      rcases List.mem_cons.mp hb with rfl | hb
      · exact hxy
      · exact strLe_trans hxy (hy b hb)
    | false =>
      simp only [Bool.false_eq_true, if_false]
      refine List.pairwise_cons.mpr ⟨?_, ih hys⟩
      intro b hb
      rcases mem_insertSorted.mp hb with rfl | hb
      · rcases strLe_total b y with h' | h'
        · exact absurd h' (by simp [StrLe, hxy])
        · exact h'
      · exact hy b hb

/-- `sortStrings` always returns a `StrLe`-sorted list. -/
theorem sorted_sortStrings (l : List String) : (sortStrings l).Pairwise StrLe := by
  induction l with
  | nil => simp [sortStrings]
  | cons x xs ih => exact sorted_insertSorted ih

/-- C1 (counterexample): on the worked example the package-data mapping
returned by `find_packages` is not exactly `{"demo_pkg": ["data/*"]}` —
it also carries the synthetic empty-string key. -/
theorem c1_counterexample :
    (find_packages demoTree).2 ≠ [("demo_pkg", ["data/*"])] := by
  simp only [demoTree, find_packages, FsDir.name, FsDir.files, FsDir.subdirs, walkForest]
  decide

/-- C1 (amended): on the worked example, `find_packages` returns the
package list `["demo_pkg"]` and the package-data mapping
`{"": ["*"], "demo_pkg": ["data/*"]}` (the claimed entries plus the
synthetic empty-string key that is always present), and
`convert_dependencies` returns the mandatory list
`["requests>=2.0,<3.0"]` and the extras mapping
`{"fast": ["ujson>=1.0,<2.0"]}` exactly as claimed. -/
theorem c1_amended :
    find_packages demoTree = (["demo_pkg"], [("", ["*"]), ("demo_pkg", ["data/*"])]) ∧
    convert_dependencies demoPackage [requestsDep, ujsonDep] =
      (["requests>=2.0,<3.0"], [("fast", ["ujson>=1.0,<2.0"])]) := by
  constructor
  · simp only [demoTree, find_packages, FsDir.name, FsDir.files, FsDir.subdirs, walkForest]
    decide
  · decide

/-- C8: constructing a `Dependency` never fails on an unparseable
constraint string; the constraint is silently replaced by the parse of
`'*'`, the accept-any-version constraint, while the raw string is kept
as the pretty constraint. (`Dependency.make` is total, so construction
always succeeds.) -/
theorem c8_unparseable_constraint_widened (name c : String) (opt : Bool)
    (cat : String) (pre : Bool) (h : parse_constraints c = none) :
    (Dependency.make name c opt cat pre).constraint = anyConstraint ∧
    (Dependency.make name c opt cat pre).pretty_constraint = c := by
  simp [Dependency.make, h]

theorem c8_witness :
    parse_constraints "><" = none ∧
    (Dependency.make "foo" "><" false "main" false).constraint = anyConstraint ∧
    (Dependency.make "foo" "><" false "main" false).pretty_constraint = "><" :=
  ⟨by decide, c8_unparseable_constraint_widened "foo" "><" false "main" false (by decide)⟩

/-- C9: two dependencies built from `'>=1.0'` and `'>= 1.0'` compare
equal under `Dependency.__eq__` (same lower-cased name, equal parsed
constraint) while the tuples their `__hash__` hashes differ, because the
hash is keyed on the unparsed constraint string. -/
theorem c9_eq_hash_mismatch :
    dependencyEq (Dependency.make "foo" ">=1.0" false "main" false) (Dependency.make "foo" ">= 1.0" false "main" false) = true ∧
    dependencyHashKey (Dependency.make "foo" ">=1.0" false "main" false) ≠
      dependencyHashKey (Dependency.make "foo" ">= 1.0" false "main" false) := by
  decide

/-- C10: setting `python_versions` to an unparseable string propagates
the parse error (the raised flag is set) instead of widening to
accept-any, and the update is not atomic: the stored string has already
been replaced while the parsed python constraint keeps its previous
value. -/
theorem c10_setter_not_atomic (d : Dependency) (value : String)
    (h : parse_constraints value = none) :
    (d.set_python_versions value).2 = true ∧
    (d.set_python_versions value).1.python_versions = value ∧
    (d.set_python_versions value).1.python_constraint = d.python_constraint := by
  simp [Dependency.set_python_versions, h]

theorem c10_witness :
    parse_constraints "><" = none ∧
    ((Dependency.make "foo" "*" false "main" false).set_python_versions "><").2 = true ∧
    ((Dependency.make "foo" "*" false "main" false).set_python_versions "><").1.python_versions = "><" ∧
    ((Dependency.make "foo" "*" false "main" false).set_python_versions "><").1.python_constraint =
      (Dependency.make "foo" "*" false "main" false).python_constraint :=
  ⟨by decide, c10_setter_not_atomic (Dependency.make "foo" "*" false "main" false) "><" (by decide)⟩

/-- `pyStripSpaces` leaves no space character. -/
theorem no_space_pyStripSpaces (s : String) : ' ' ∉ (pyStripSpaces s).data := by
  intro h
  have := (List.mem_filter.mp h).2
  simp at this

/-- String append concatenates the character lists. -/
theorem data_append (s t : String) : (s ++ t).data = s.data ++ t.data := rfl

/-- Comma-joining space-free strings yields a space-free string. -/
theorem no_space_commaJoin (l : List String) (h : ∀ s ∈ l, ' ' ∉ s.data) :
    ' ' ∉ (commaJoin l).data := by
  induction l with
  | nil => simp [commaJoin, pyJoin]
  | cons x xs ih =>
    cases xs with
    | nil => exact fun hx => h x (by simp) hx
    | cons y ys =>
      simp only [commaJoin, pyJoin] at ih ⊢
      intro hx
      rw [data_append, data_append] at hx
      rcases List.mem_append.mp hx with hx | hx
      · rcases List.mem_append.mp hx with hx | hx
        · exact h x (by simp) hx
        · simp at hx
      · exact ih (fun s hs => h s (List.mem_cons_of_mem _ hs)) hx

/-- C6: the constraint portion of `to_pep_508`'s output — everything
after the display name and before any marker — contains no space, for
every constraint including conjunctions, whose stripped sub-constraints
are comma-joined with no space. -/
theorem c6_no_space_in_constraint (d : Dependency) :
    d.to_pep_508 = d.pretty_name ++ renderConstraint d.constraint ++ markerSuffix d ∧
    ' ' ∉ (renderConstraint d.constraint).data := by
  constructor
  · show Dependency.to_pep_508 d = _
    rw [Dependency.to_pep_508, markerSuffix]
    by_cases h : d.python_versions ≠ "*"
    · simp only [h, if_true, if_pos h]
      rw [String.append_assoc]
    · simp only [h, if_false, if_neg h]
      rw [show ("" : String) = ⟨[]⟩ from rfl]
      apply String.ext
      rw [data_append]
      simp
  · rcases hc : d.constraint with ⟨op, v⟩ | cs
    · exact no_space_pyStripSpaces _
    · exact no_space_commaJoin _ (by
        intro s hs
        rcases List.mem_map.mp hs with ⟨c, _, rfl⟩
        exact no_space_pyStripSpaces _)

theorem combineFound_nil (o : Option (List String)) : combineFound o [] = o := by
  cases o <;> simp [combineFound]

theorem combineFound_assoc (o : Option (List String)) (k1 k2 : List String) :
    combineFound (combineFound o k1) k2 = combineFound o (k1 ++ k2) := by
  cases o with
  | some v => cases k2 <;> simp [combineFound]
  | none =>
    cases k1 with
    | nil => simp [combineFound]
    | cons a l1 => cases k2 <;> simp [combineFound]

theorem combineFound_none (k : List String) :
    combineFound none k = if k = [] then none else some k := by
  cases k <;> simp [combineFound]

/-- Lookup after a `defaultdict` append: the appended key's entry grows
by the value, every other entry is untouched. -/
theorem assocFind_assocAppend (ex : List (String × List String)) (k v q : String) :
    assocFind (assocAppend ex k v) q =
      if q = k then some ((assocFind ex k).getD [] ++ [v]) else assocFind ex q := by
  induction ex with
  | nil =>
    by_cases h : q = k
    · subst h; simp [assocAppend, assocFind]
    · have h2 : ¬ k = q := fun hh => h hh.symm
      simp [assocAppend, assocFind, h, h2]
  | cons p rest ih =>
    obtain ⟨k', vs⟩ := p
    by_cases hk : k' = k
    · subst hk
      by_cases hq : q = k'
      · subst hq; simp [assocAppend, assocFind]
      · have h2 : ¬ k' = q := fun hh => hq hh.symm
        simp [assocAppend, assocFind, hq, h2]
    · by_cases hq : k' = q
      · subst hq
        have hqk : ¬ k' = k := hk
        simp [assocAppend, assocFind, hk, hqk]
      · simp [assocAppend, assocFind, hk, hq, ih]

/-- Lookup after the inner loop of `convert_dependencies` for one extras
entry `(ename, reqs)`: one copy of the rendered requirement is appended
to `ename`'s list per name-matching member of `reqs`. -/
theorem assocFind_reqsFold (d : Dependency) (ename : String) (reqs : List Dependency)
    (ex : List (String × List String)) (q : String) :
    assocFind
      (reqs.foldl
        (fun ex req => if req.name = d.name then assocAppend ex ename d.to_pep_508 else ex)
        ex) q =
    if q = ename then
      combineFound (assocFind ex q)
        (reqs.flatMap (fun req => if req.name = d.name then [d.to_pep_508] else []))
    else assocFind ex q := by
  induction reqs generalizing ex with
  | nil => simp [combineFound_nil]
  | cons r rs ih =>
    simp only [List.foldl_cons, List.flatMap_cons]
    by_cases hr : r.name = d.name
    · simp only [hr, if_true, if_pos hr]
      rw [ih]
      by_cases hq : q = ename
      · subst hq
        rw [assocFind_assocAppend]
        simp only [if_pos rfl]
        cases hfound : assocFind ex q with
        | none => cases rs.flatMap (fun req => if req.name = d.name then [d.to_pep_508] else []) <;>
            simp [combineFound]
        | some v => cases rs.flatMap (fun req => if req.name = d.name then [d.to_pep_508] else []) <;>
            simp [combineFound]
      · rw [assocFind_assocAppend]
        simp [hq]
    · simp only [hr, if_false, if_neg hr]
      rw [ih]
      simp

/-- Lookup after folding the whole extras map for one optional
dependency (the loop body of `addToExtras`, stated for an arbitrary
pair list). -/
theorem assocFind_extrasFold (d : Dependency) (pairs : List (String × List Dependency))
    (ex : List (String × List String)) (q : String) :
    assocFind
      (pairs.foldl
        (fun ex p =>
          p.2.foldl
            (fun ex req =>
              if req.name = d.name then assocAppend ex p.1 d.to_pep_508 else ex)
            ex)
        ex) q =
    combineFound (assocFind ex q)
      (pairs.flatMap (fun p =>
        if p.1 = q then
          p.2.flatMap (fun req => if req.name = d.name then [d.to_pep_508] else [])
        else [])) := by
  induction pairs generalizing ex with
  | nil => simp [combineFound_nil]
  | cons p ps ih =>
    simp only [List.foldl_cons, List.flatMap_cons]
    rw [ih, assocFind_reqsFold]
    by_cases hq : q = p.1
    · have hq' : p.1 = q := hq.symm
      simp only [if_pos hq, if_pos hq', combineFound_assoc]
    · have hq' : ¬ p.1 = q := fun hh => hq hh.symm
      simp [hq, hq']

/-- The fold of `convert_dependencies`, relative to an arbitrary
accumulator. -/
theorem convert_fold (package : Package) (deps : List Dependency)
    (m : List String) (ex : List (String × List String)) :
    (deps.foldl (convStep package) (m, ex)).1 =
      m ++ (deps.filter (fun d => ! d.is_optional)).map Dependency.to_pep_508 ∧
    ∀ q, assocFind (deps.foldl (convStep package) (m, ex)).2 q =
      combineFound (assocFind ex q) (extrasValue package deps q) := by
  induction deps generalizing m ex with
  | nil => simp [extrasValue, combineFound_nil]
  | cons d ds ih =>
    simp only [List.foldl_cons]
    by_cases hopt : d.is_optional
    · have hstep : convStep package (m, ex) d = (m, addToExtras package d ex) := by
        simp [convStep, hopt]
      rw [hstep]
      refine ⟨?_, ?_⟩
      · rw [(ih m (addToExtras package d ex)).1]
        simp [hopt]
      · intro q
        rw [(ih m (addToExtras package d ex)).2 q]
        rw [show addToExtras package d ex =
          package.extras.foldl
            (fun ex p =>
              p.2.foldl
                (fun ex req =>
                  if req.name = d.name then assocAppend ex p.1 d.to_pep_508 else ex)
                ex)
            ex from rfl]
        rw [assocFind_extrasFold, combineFound_assoc]
        simp [extrasValue, hopt]
    · have hstep : convStep package (m, ex) d = (m ++ [d.to_pep_508], ex) := by
        simp [convStep, hopt]
      rw [hstep]
      refine ⟨?_, ?_⟩
      · rw [(ih (m ++ [d.to_pep_508]) ex).1]
        simp [hopt]
      · intro q
        rw [(ih (m ++ [d.to_pep_508]) ex).2 q]
        simp [extrasValue, hopt]

/-- C5: `convert_dependencies` partitions exactly — the mandatory list
is the in-order rendering of the non-optional dependencies (so an
optional dependency never contributes to it), and each extra's list is
exactly the renderings of the optional dependencies whose name occurs
in that extra's member list (so a non-optional dependency never
contributes to an extras list, and no dependency contributes to
both). -/
theorem c5_partition (package : Package) (deps : List Dependency) :
    (convert_dependencies package deps).1 =
      (deps.filter (fun d => ! d.is_optional)).map Dependency.to_pep_508 ∧
    ∀ e, assocFind (convert_dependencies package deps).2 e =
      (if extrasValue package deps e = [] then none
       else some (extrasValue package deps e)) := by
  have h := convert_fold package deps [] []
  refine ⟨by simpa using h.1, fun e => ?_⟩
  rw [show convert_dependencies package deps = deps.foldl (convStep package) ([], []) from rfl,
    h.2 e]
  simp [assocFind, combineFound_none]

/-- Dropping an entry whose basename is a bytecode cache does not change
one walk step (such entries are skipped). -/
theorem discStep_pycache (pkg_name : String) (st : DiscState)
    (e : List String × List String) (h : e.1.getLastD pkg_name = "__pycache__") :
    discStep pkg_name st e = st := by
  unfold discStep
  dsimp only
  rw [if_pos h]

/-- C4 (amended): entries of directories whose basename is `__pycache__`
contribute nothing to `find_packages`' walk — filtering them out of the
entry stream leaves the result unchanged. (The walk does not prune
their subtrees, so directories nested inside a bytecode cache are still
visited; see the counterexample.) -/
theorem c4_amended (pkg_name : String) (entries : List (List String × List String)) :
    processEntries pkg_name entries =
      processEntries pkg_name
        (entries.filter (fun e => e.1.getLastD pkg_name != "__pycache__")) := by
  unfold processEntries
  suffices h : ∀ st : DiscState,
      entries.foldl (discStep pkg_name) st =
        (entries.filter (fun e => e.1.getLastD pkg_name != "__pycache__")).foldl
          (discStep pkg_name) st by
    rw [h]
  intro st
  induction entries generalizing st with
  | nil => rfl
  | cons e rest ih =>
    simp only [List.foldl_cons, List.filter_cons]
    by_cases he : e.1.getLastD pkg_name = "__pycache__"
    · have hf : (e.1.getLastD pkg_name != "__pycache__") = false := by
        rw [bne_eq_false_iff_eq]; exact he
      rw [hf]
      simp only [Bool.false_eq_true, if_false]
      rw [discStep_pycache pkg_name st e he]
      exact ih st
    · have ht : (e.1.getLastD pkg_name != "__pycache__") = true := bne_iff_ne.mpr he
      rw [ht]
      simp only [if_true, List.foldl_cons]
      exact ih (discStep pkg_name st e)

/-- C4 (counterexample): in a tree whose only data sits in a directory
nested inside `__pycache__`, `find_packages` does record a data glob
derived from that nested directory. -/
theorem c4_counterexample :
    assocFind
      (find_packages
        (.mk "demo" ["__init__.py"] [.mk "__pycache__" ["x.pyc"] [.mk "sub" ["f.txt"] []]])).2
      "demo" = some ["__pycache__/sub/*"] := by
  simp only [find_packages, FsDir.name, FsDir.files, FsDir.subdirs, walkForest]
  decide

/-- A walk step never removes a name from the accumulated package
list. -/
theorem mem_packages_discStep (pkg_name : String) (st : DiscState)
    (e : List String × List String) (x : String) (h : x ∈ st.packages) :
    x ∈ (discStep pkg_name st e).packages := by
  unfold discStep
  dsimp only
  split
  · exact h
  · split
    · exact h
    · split
      · simp [h]
      · exact h

/-- The package list only grows across the walk. -/
theorem mem_packages_foldl (pkg_name : String) (entries : List (List String × List String)) :
    ∀ st : DiscState, ∀ x ∈ st.packages,
      x ∈ (entries.foldl (discStep pkg_name) st).packages := by
  induction entries with
  | nil => intro st x h; exact h
  | cons e rest ih =>
    intro st x h
    exact ih (discStep pkg_name st e) x (mem_packages_discStep pkg_name st e x h)

/-- Lookup commutes with the final per-key sort of the data mapping. -/
theorem assocFind_map_sort (l : List (String × List String)) (q : String) :
    assocFind (l.map (fun kv => (kv.1, sortStrings kv.2))) q =
      (assocFind l q).map sortStrings := by
  induction l with
  | nil => rfl
  | cons kv rest ih =>
    by_cases h : kv.1 = q
    · simp [assocFind, h]
    · simp [assocFind, h, ih]

/-- The empty-string entry of the data mapping survives every walk step
and always keeps its `"*"` pattern. -/
theorem star_entry_foldl (pkg_name : String) (entries : List (List String × List String)) :
    ∀ st : DiscState, (∃ l, assocFind st.pkg_data "" = some l ∧ "*" ∈ l) →
      ∃ l, assocFind ((entries.foldl (discStep pkg_name) st).pkg_data) "" = some l ∧ "*" ∈ l := by
  induction entries with
  | nil => intro st h; exact h
  | cons e rest ih =>
    intro st h
    refine ih (discStep pkg_name st e) ?_
    obtain ⟨l, hfind, hstar⟩ := h
    unfold discStep
    dsimp only
    split
    · exact ⟨l, hfind, hstar⟩
    · split
      · exact ⟨l, hfind, hstar⟩
      · split
        · exact ⟨l, hfind, hstar⟩
        · rw [assocFind_assocAppend]
          by_cases hk : ("" : String) = (find_nearest_pkg pkg_name st.subpkg_paths e.1).1
          · rw [if_pos hk, ← hk, hfind]
            exact ⟨_, rfl, by simp [hstar]⟩
          · rw [if_neg hk]
            exact ⟨l, hfind, hstar⟩

/-- C7 (amended): for every source tree, the package-name list returned
by `find_packages` is sorted lexicographically, every per-package
pattern list is sorted, the top-level package name is present, and the
synthetic empty-string key is present and maps to a list containing the
universal pattern `"*"`. (The lists need not be duplicate-free; see the
counterexample.) -/
theorem c7_amended (root : FsDir) :
    (find_packages root).1.Pairwise StrLe ∧
    (∀ kv ∈ (find_packages root).2, kv.2.Pairwise StrLe) ∧
    root.name ∈ (find_packages root).1 ∧
    ∃ l, assocFind (find_packages root).2 "" = some l ∧ "*" ∈ l := by
  refine ⟨sorted_sortStrings _, ?_, ?_, ?_⟩
  · intro kv hkv
    rcases List.mem_map.mp hkv with ⟨kv', _, rfl⟩
    exact sorted_sortStrings _
  · exact mem_sortStrings.mpr
      (mem_packages_foldl root.name _ _ root.name (by simp))
  · have h := star_entry_foldl root.name
      (([], root.files) :: walkForest [] root.subdirs)
      { packages := [root.name], subpkg_paths := [], pkg_data := [("", ["*"])] }
      ⟨["*"], by simp [assocFind], by simp⟩
    obtain ⟨l, hfind, hstar⟩ := h
    refine ⟨sortStrings l, ?_, mem_sortStrings.mpr hstar⟩
    show assocFind ((_ : DiscState).pkg_data.map (fun kv => (kv.1, sortStrings kv.2))) "" = _
    rw [assocFind_map_sort, hfind]
    rfl

/-- C7 (counterexample): directory names containing dots make distinct
directory paths collide on the same dotted package name, so the
package-name list is not duplicate-free. -/
theorem c7_counterexample :
    ¬ (find_packages
        (.mk "p" ["__init__.py"]
          [.mk "a" ["__init__.py"] [.mk "b" ["__init__.py"] []],
           .mk "a.b" ["__init__.py"] []])).1.Nodup := by
  simp only [find_packages, FsDir.name, FsDir.files, FsDir.subdirs, walkForest]
  decide

/-- Appending to a fixed string on the left is injective. -/
theorem string_append_right_inj (s : String) {a b : String} (h : s ++ a = s ++ b) : a = b := by
  have h2 : s.data ++ a.data = s.data ++ b.data := congrArg String.data h
  exact String.ext (List.append_cancel_left h2)

/-- The implementation abbreviations `get_abbr_impl` can return. -/
theorem get_abbr_impl_mem {env : Env} {impl : String} (h : get_abbr_impl env = some impl) :
    impl = "pp" ∨ impl = "jy" ∨ impl = "ip" ∨ impl = "cp" := by
  unfold get_abbr_impl at h
  split_ifs at h <;> simp_all

/-- Lists differing in their second element differ. -/
theorem two_ne {a b c d : Char} {l m : List Char} (h : b ≠ d) : a :: b :: l ≠ c :: d :: m := by
  intro he
  injection he with h1 h2
  injection h2 with h3 _
  exact h h3

/-- Lists differing in their first element differ. -/
theorem one_ne {a c : Char} {l m : List Char} (h : a ≠ c) : a :: l ≠ c :: m := by
  intro he
  injection he with h1 _
  exact h h1

/-- An interpreter-specific tag prefix never coincides with the generic
`py` prefix. -/
theorem impl_append_ne_py {impl : String}
    (h : impl = "pp" ∨ impl = "jy" ∨ impl = "ip" ∨ impl = "cp") (x y : String) :
    impl ++ x ≠ "py" ++ y := by
  rcases h with rfl | rfl | rfl | rfl
  · intro heq
    exact two_ne (by decide) (congrArg String.data heq)
  · intro heq
    exact one_ne (by decide) (congrArg String.data heq)
  · intro heq
    exact one_ne (by decide) (congrArg String.data heq)
  · intro heq
    exact one_ne (by decide) (congrArg String.data heq)

/-- The platform-candidate list always ends with the native platform. -/
theorem platforms_of_getLastD (env : Env) (supplied : Option String) :
    (platforms_of env supplied).getLastD "" = get_platform env := by
  cases supplied <;> rfl

/-- The native platform is always a platform candidate. -/
theorem get_platform_mem_platforms (env : Env) (supplied : Option String) :
    get_platform env ∈ platforms_of env supplied := by
  cases supplied <;> simp [platforms_of]

/-- C3: whenever `get_abi_tag` determines an ABI, the first tuple of the
sequence returned by `get_supported` is the implementation abbreviation
concatenated with the primary version, that ABI, and the first platform
candidate. -/
theorem c3_first_tag (env : Env) (versions : Option (List String))
    (supplied : Option String) (impl a v0 : String) (vtail : List String)
    (out : List (String × String × String))
    (himpl : get_abbr_impl env = some impl)
    (habi : get_abi_tag env = some (some a))
    (hvs : effective_versions env versions = some (v0 :: vtail))
    (hout : get_supported env versions supplied = some out) :
    out.head? = some (impl ++ v0, a, (platforms_of env supplied).headD "") := by
  simp only [get_supported, hvs, himpl, habi] at hout
  by_cases hv0 : v0 = ""
  · rw [if_pos hv0] at hout
    exact absurd hout (by simp)
  · rw [if_neg hv0] at hout
    obtain rfl := (Option.some.injEq _ _).mp hout
    obtain ⟨p0, ps, hp⟩ : ∃ p0 ps, platforms_of env supplied = p0 :: ps := by
      cases supplied with
      | none => exact ⟨_, _, rfl⟩
      | some s => exact ⟨_, _, rfl⟩
    rw [hp]
    simp [abis_of, List.flatMap_cons, hp]

/-- C3 witness: the spec's reference environment yields
`("cp39", "cp39", "linux_x86_64")` as the first tag. -/
theorem c3_witness :
    ((get_supported refEnv none none).getD []).head? =
      some ("cp39", "cp39", "linux_x86_64") := by
  have hsome : get_supported refEnv none none =
      some ((get_supported refEnv none none).getD []) := by decide
  have h := c3_first_tag refEnv none none "cp" "cp39" "39"
    ["38", "37", "36", "35", "34", "33", "32", "31", "30"]
    ((get_supported refEnv none none).getD [])
    (by decide) (by decide) (by decide) hsome
  rw [h]
  decide

/-- The cross product of one first component, an ABI list and a platform
list is duplicate-free when both lists are. -/
theorem nodup_tag_block (c : String) {A P : List String} (hA : A.Nodup) (hP : P.Nodup) :
    (A.flatMap (fun abi => P.map (fun arch => (c, abi, arch)))).Nodup := by
  rw [List.nodup_flatMap]
  refine ⟨fun abi _ => List.Nodup.map ?_ hP, ?_⟩
  · intro x y h
    simpa using h
  · refine hA.imp ?_
    intro a b hne t ht1 ht2
    rcases List.mem_map.mp ht1 with ⟨x, _, rfl⟩
    rcases List.mem_map.mp ht2 with ⟨y, _, hty⟩
    exact hne (by simpa using (congrArg (fun q => q.2.1) hty).symm)

/-- Every member of a tag block carries the block's first component. -/
theorem mem_tag_block_fst {c : String} {A P : List String} {t : String × String × String}
    (ht : t ∈ A.flatMap (fun abi => P.map (fun arch => (c, abi, arch)))) : t.1 = c := by
  rcases List.mem_flatMap.mp ht with ⟨abi, _, hm⟩
  rcases List.mem_map.mp hm with ⟨arch, _, rfl⟩
  rfl

/-- Every member of a tag block carries a platform from the platform
list. -/
theorem mem_tag_block_arch {c : String} {A P : List String} {t : String × String × String}
    (ht : t ∈ A.flatMap (fun abi => P.map (fun arch => (c, abi, arch)))) : t.2.2 ∈ P := by
  rcases List.mem_flatMap.mp ht with ⟨abi, _, hm⟩
  rcases List.mem_map.mp hm with ⟨arch, harch, rfl⟩
  exact harch

/-- The version-crossed tag block of the abi3-compatibility pass is
duplicate-free when its three generators are. -/
theorem nodup_tag_block3 (impl : String) {V A P : List String} (hV : V.Nodup)
    (hA : A.Nodup) (hP : P.Nodup) :
    (V.flatMap (fun v => A.flatMap
      (fun abi => P.map (fun arch => (impl ++ v, abi, arch))))).Nodup := by
  rw [List.nodup_flatMap]
  refine ⟨fun v _ => nodup_tag_block _ hA hP, ?_⟩
  refine hV.imp ?_
  intro v w hne t ht1 ht2
  have h1 := mem_tag_block_fst ht1
  have h2 := mem_tag_block_fst ht2
  exact hne (string_append_right_inj impl (h1.symm.trans h2))

/-- The interpreter-only (or generic) enumeration pass is duplicate-free
when the version list is and no version equals the leading character of
the primary version. -/
theorem nodup_enum_block (pre : String) {v0 h0 : String} {vtail : List String}
    (hnd : (v0 :: vtail).Nodup) (hne : ∀ v ∈ v0 :: vtail, v ≠ h0) :
    ((pre ++ v0, "none", "any") :: (pre ++ h0, "none", "any") ::
      vtail.map (fun v => ((pre ++ v, "none", "any") : String × String × String))).Nodup := by
  have hv0 : v0 ∉ vtail := (List.nodup_cons.mp hnd).1
  have hvt : vtail.Nodup := (List.nodup_cons.mp hnd).2
  refine List.nodup_cons.mpr ⟨?_, List.nodup_cons.mpr ⟨?_, ?_⟩⟩
  · intro hmem
    rcases List.mem_cons.mp hmem with heq | hmem
    · have h1 : pre ++ v0 = pre ++ h0 := congrArg Prod.fst heq
      exact hne v0 (by simp) (string_append_right_inj pre h1)
    · rcases List.mem_map.mp hmem with ⟨v, hv, heq⟩
      have h1 : pre ++ v = pre ++ v0 := congrArg Prod.fst heq
      exact hv0 ((string_append_right_inj pre h1) ▸ hv)
  · intro hmem
    rcases List.mem_map.mp hmem with ⟨v, hv, heq⟩
    have h1 : pre ++ v = pre ++ h0 := congrArg Prod.fst heq
    exact hne v (by simp [hv]) (string_append_right_inj pre h1)
  · refine List.Nodup.map ?_ hvt
    intro x y h
    exact string_append_right_inj pre (congrArg Prod.fst h)

/-- Shape of the members of an enumeration pass: platform `"any"` and a
first component extending the pass's prefix. -/
theorem mem_enum_block {pre v0 h0 : String} {vtail : List String}
    {t : String × String × String}
    (ht : t ∈ (pre ++ v0, "none", "any") :: (pre ++ h0, "none", "any") ::
      vtail.map (fun v => ((pre ++ v, "none", "any") : String × String × String))) :
    t.2.2 = "any" ∧ ∃ v, t.1 = pre ++ v := by
  rcases List.mem_cons.mp ht with rfl | ht
  · exact ⟨rfl, v0, rfl⟩
  rcases List.mem_cons.mp ht with rfl | ht
  · exact ⟨rfl, h0, rfl⟩
  rcases List.mem_map.mp ht with ⟨v, _, rfl⟩
  exact ⟨rfl, v, rfl⟩

/-- C2 (amended): `get_supported` performs no duplicate filtering, so
its output is duplicate-free only under side conditions the code leaves
to its inputs: the effective version list is duplicate-free and none of
its entries equals the leading character of the primary version, the
ABI list (determined ABI, limited-API identifiers, `"none"`) has no
collision, and the platform candidates are pairwise distinct and do not
contain `"any"`. Under those conditions the returned sequence contains
no tuple twice. -/
theorem c2_amended (env : Env) (versions : Option (List String)) (supplied : Option String)
    (impl : String) (abiOpt : Option String) (v0 : String) (vtail : List String)
    (out : List (String × String × String))
    (himpl : get_abbr_impl env = some impl)
    (habi : get_abi_tag env = some abiOpt)
    (hvs : effective_versions env versions = some (v0 :: vtail))
    (hnodup : (v0 :: vtail).Nodup)
    (hhead : ∀ v ∈ v0 :: vtail, v ≠ pyHeadStr v0)
    (habis : (abis_of env abiOpt).Nodup)
    (hplat : (platforms_of env supplied).Nodup)
    (hany : "any" ∉ platforms_of env supplied)
    (hout : get_supported env versions supplied = some out) :
    out.Nodup := by
  simp only [get_supported, hvs, himpl, habi] at hout
  by_cases hv0 : v0 = ""
  · rw [if_pos hv0] at hout
    exact absurd hout (by simp)
  rw [if_neg hv0] at hout
  obtain rfl := (Option.some.injEq _ _).mp hout
  have himplmem := get_abbr_impl_mem himpl
  have hvtail : vtail.Nodup := (List.nodup_cons.mp hnodup).2
  have ha3nodup : (abi3s_of env).Nodup := by
    have hsub : (abi3s_of env).Sublist (abis_of env abiOpt) := by
      have h1 : (abi3s_of env).Sublist (abiOpt.toList ++ abi3s_of env) :=
        List.sublist_append_right _ _
      have h2 : (abiOpt.toList ++ abi3s_of env).Sublist
          ((abiOpt.toList ++ abi3s_of env) ++ ["none"]) :=
        List.sublist_append_left _ _
      exact h1.trans h2
    exact hsub.nodup habis
  have htw : (vtail.takeWhile (fun v => v ≠ "31" ∧ v ≠ "30")).Nodup :=
    (List.takeWhile_sublist _).nodup hvtail
  have hlastne : (platforms_of env supplied).getLastD "" ≠ "any" := by
    rw [platforms_of_getLastD]
    intro h
    exact hany (h ▸ get_platform_mem_platforms env supplied)
  -- section nodups
  have n1 := nodup_tag_block (impl ++ v0) habis hplat
  have n2 := nodup_tag_block3 impl htw ha3nodup hplat
  have n3 := nodup_enum_block impl hnodup hhead
  have n5 := nodup_enum_block "py" hnodup hhead
  have n4 : ([("py" ++ pyHeadStr v0, "none",
      (platforms_of env supplied).getLastD "")] :
      List (String × String × String)).Nodup := List.nodup_singleton _
  -- disjointness building blocks
  have d_any : ∀ t : String × String × String, t.2.2 ∈ platforms_of env supplied →
      t.2.2 = "any" → False := by
    intro t hmem heq
    exact hany (heq ▸ hmem)
  have d_py : ∀ t : String × String × String, (∃ v, t.1 = impl ++ v) →
      (∃ w, t.1 = "py" ++ w) → False := by
    intro t ⟨v, hv⟩ ⟨w, hw⟩
    exact impl_append_ne_py himplmem v w (hv ▸ hw)
  -- assemble, right-associated
  rw [List.append_assoc, List.append_assoc, List.append_assoc]
  refine List.Nodup.append n1 ?_ ?_
  · refine List.Nodup.append n2 ?_ ?_
    · refine List.Nodup.append n3 ?_ ?_
      · refine List.Nodup.append n4 n5 ?_
        intro t ht4 ht5
        have h4 : t.2.2 = (platforms_of env supplied).getLastD "" := by
          rcases List.mem_singleton.mp ht4 with rfl
          rfl
        have h5 := (mem_enum_block ht5).1
        exact hlastne (h4 ▸ h5)
      · intro t ht3 ht45
        have h3 := mem_enum_block ht3
        rcases List.mem_append.mp ht45 with ht4 | ht5
        · have h4 : t.1 = "py" ++ pyHeadStr v0 := by
            rcases List.mem_singleton.mp ht4 with rfl
            rfl
          exact d_py t h3.2 ⟨pyHeadStr v0, h4⟩
        · exact d_py t h3.2 (mem_enum_block ht5).2
    · intro t ht2 ht345
      have h2fst : ∃ v ∈ vtail, t.1 = impl ++ v := by
        rcases List.mem_flatMap.mp ht2 with ⟨v, hv, hm⟩
        exact ⟨v, (List.takeWhile_sublist _).subset hv, mem_tag_block_fst hm⟩
      have h2arch : t.2.2 ∈ platforms_of env supplied := by
        rcases List.mem_flatMap.mp ht2 with ⟨v, hv, hm⟩
        exact mem_tag_block_arch hm
      rcases List.mem_append.mp ht345 with ht3 | ht45
      · exact d_any t h2arch (mem_enum_block ht3).1
      · rcases List.mem_append.mp ht45 with ht4 | ht5
        · have h4 : t.1 = "py" ++ pyHeadStr v0 := by
            rcases List.mem_singleton.mp ht4 with rfl
            rfl
          obtain ⟨v, _, hv⟩ := h2fst
          exact d_py t ⟨v, hv⟩ ⟨pyHeadStr v0, h4⟩
        · obtain ⟨v, _, hv⟩ := h2fst
          exact d_py t ⟨v, hv⟩ (mem_enum_block ht5).2
  · intro t ht1 htrest
    have h1fst : t.1 = impl ++ v0 := mem_tag_block_fst ht1
    have h1arch : t.2.2 ∈ platforms_of env supplied := mem_tag_block_arch ht1
    rcases List.mem_append.mp htrest with ht2 | ht345
    · -- current vs abi3compat: same first component forces v0 in the tail
      rcases List.mem_flatMap.mp ht2 with ⟨v, hv, hm⟩
      have h2fst := mem_tag_block_fst hm
      have hvv0 : v0 = v := string_append_right_inj impl (h1fst.symm.trans h2fst)
      exact (List.nodup_cons.mp hnodup).1
        (hvv0 ▸ (List.takeWhile_sublist _).subset hv)
    · rcases List.mem_append.mp ht345 with ht3 | ht45
      · exact d_any t h1arch (mem_enum_block ht3).1
      · rcases List.mem_append.mp ht45 with ht4 | ht5
        · have h4 : t.1 = "py" ++ pyHeadStr v0 := by
            rcases List.mem_singleton.mp ht4 with rfl
            rfl
          exact d_py t ⟨v0, h1fst⟩ ⟨pyHeadStr v0, h4⟩
        · exact d_py t ⟨v0, h1fst⟩ (mem_enum_block ht5).2

/-- C2 (counterexample): with a caller-supplied platform override equal
to the native platform, `get_supported` returns a sequence with
duplicated tuples — it never deduplicates. -/
theorem c2_counterexample :
    ¬ ((get_supported refEnv none (some "linux_x86_64")).getD []).Nodup := by
  decide

/-- C2 witness: in the reference environment with no override and the
default version list, all the side conditions hold and the output is
duplicate-free. -/
theorem c2_witness : ((get_supported refEnv none none).getD []).Nodup := by
  have hsome : get_supported refEnv none none =
      some ((get_supported refEnv none none).getD []) := by decide
  exact c2_amended refEnv none none "cp" (some "cp39") "39"
    ["38", "37", "36", "35", "34", "33", "32", "31", "30"]
    ((get_supported refEnv none none).getD [])
    (by decide) (by decide) (by decide) (by decide) (by decide) (by decide)
    (by decide) (by decide) hsome

end Poetry
